import Mathlib

/-!
Verification of the location-stock-indicator core pipeline.

The JavaScript source under study lives in `app/routes/apps.location-stock.js`
(the newest snapshot of that route): `isLocalDeliveryMethodName`, `getNodes`,
`buildLocationDeliveryFlags`, `applyConfigToStocks` and `buildGlobalConfig`.
JavaScript values read from the persisted JSON metafield are modelled by the
`JVal` type below; JS numbers are modelled as integers (no claim under study
depends on fractional or IEEE behaviour), string case-folding and trimming are
modelled on the ASCII subset that Lean's `String` primitives implement, and
`localeCompare` is modelled as the codepoint order on strings.
-/

/-- An untrusted JSON value as produced by `JSON.parse`. -/
inductive JVal where
  | null
  | bool (b : Bool)
  | num (n : Int)
  | str (s : String)
  | arr (elems : List JVal)
  | obj (fields : List (String × JVal))

/-- JS truthiness (`!!v`) on the modelled value domain. `undefined` is handled
by `Option JVal` at use sites. -/
def truthy : JVal → Bool
  | .null => false
  | .bool b => b
  | .num n => n != 0
  | .str s => s != ""
  | .arr _ => true
  | .obj _ => true

/-- JS property read `v[k]`: `none` models `undefined` (absent key, or a
receiver that has no such property). Objects from `JSON.parse` have unique
keys, so taking the first binding is exact. -/
def getField : JVal → String → Option JVal
  | .obj fields, k => fields.lookup k
  | _, _ => none

/-- `(v[sec] || {})[k]` — a field read through a defaulted section object. -/
def getField2 (v : JVal) (sec k : String) : Option JVal :=
  match getField v sec with
  | some s => getField s k
  | none => none

/-- JS `===` / SameValueZero for the values that appear as `Map` keys here.
Primitives compare by value; two distinct nodes of a `JSON.parse` tree are
always distinct object references, so composite values never compare equal. -/
def jvalPrimEq : JVal → JVal → Bool
  | .null, .null => true
  | .bool a, .bool b => a == b
  | .num a, .num b => a == b
  | .str a, .str b => a == b
  | _, _ => false

/-- Object spread update `{...v, k: x}`: replace the first binding of `k`
(objects from `JSON.parse` have at most one), else append it. The non-object
case is unreachable at the call sites (spread sources are filtered objects). -/
def setField (v : JVal) (k : String) (x : JVal) : JVal :=
  match v with
  | .obj fields => .obj (setFieldList fields k x)
  | _ => .obj [(k, x)]
where
  setFieldList : List (String × JVal) → String → JVal → List (String × JVal)
  | [], k, x => [(k, x)]
  | (k', v') :: rest, k, x =>
      if k' = k then (k, x) :: rest else (k', v') :: setFieldList rest k x

/-- ASCII whitespace stripped by `String.prototype.trim` (the model covers the
ASCII part of the JS WhiteSpace/LineTerminator sets). -/
def jsWs (c : Char) : Bool := c = ' ' || c = '\t' || c = '\n' || c = '\r'

/-- Both-ends trim on the character list. -/
def trimChars (l : List Char) : List Char :=
  ((l.dropWhile jsWs).reverse.dropWhile jsWs).reverse

/-- Model of `String.prototype.trim`. -/
def jsTrim (s : String) : String := ⟨trimChars s.data⟩

/-- Model of `String.prototype.toLowerCase` (ASCII case mapping; every
keyword-table character outside ASCII is uncased). -/
def jsToLower (s : String) : String := ⟨s.data.map Char.toLower⟩

/-- Substring containment on character lists (`String.prototype.includes`). -/
def charsContain (hay needle : List Char) : Bool :=
  hay.tails.any (fun t => needle.isPrefixOf t)

/-- Model of `hay.includes(needle)`. -/
def strIncludes (hay needle : String) : Bool := charsContain hay.data needle.data

/-- `isLocalDeliveryMethodName(name)` from `apps.location-stock.js`: guard
`!name || typeof name !== "string"` (for a string, falsiness is emptiness;
every non-string returns false), then a case-insensitive substring match
against the fixed keyword table. -/
def isLocalDeliveryMethodName (name : JVal) : Bool :=
  match name with
  | .str s =>
      if s = "" then false
      else
        let n := jsTrim (jsToLower s)
        strIncludes n "local" ||
        strIncludes n "ローカル" ||
        strIncludes n "local delivery" ||
        strIncludes n "localdelivery" ||
        strIncludes n "same-day" ||
        strIncludes n "sameday" ||
        strIncludes n "same day" ||
        strIncludes n "当日" ||
        strIncludes n "近距離" ||
        strIncludes n "半径" ||
        strIncludes n "地域配達"
  | _ => false

/-- Whether a `JVal` is a string (the `typeof name === "string"` test). -/
def jvalIsString : JVal → Bool
  | .str _ => true
  | _ => false

/-- A GraphQL connection object: a materialized `nodes` list, an `edges` list
whose `node` entries may be null, or a null/absent connection. -/
inductive Conn (α : Type) where
  | null
  | nodes (l : List α)
  | edges (l : List (Option α))
  deriving DecidableEq

/-- `getNodes(connection)` from `apps.location-stock.js`: prefer `nodes`, fall
back to `edges.map((e) => e.node).filter(Boolean)`, default to `[]`. -/
def getNodes : Conn α → List α
  | .null => []
  | .nodes l => l
  | .edges l => l.filterMap id

/-- A member location node of a delivery location group (`{ id }`). -/
structure LocNode where
  id : Option String
  deriving DecidableEq

/-- A delivery method definition (`{ active, name, rateProvider }`); the
`rateProvider` field holds its `__typename`, `none` modelling a null or absent
rate provider. -/
structure MethodDef where
  active : Bool
  name : Option String
  rateProvider : Option String
  deriving DecidableEq

/-- One entry of `locationGroupZones`: `zoneNode.zone?.name` collapsed to an
optional name, plus the method-definition connection. -/
structure ZoneNode where
  zoneName : Option String
  methodDefinitions : Conn MethodDef
  deriving DecidableEq

/-- One entry of `profileLocationGroups`: the member-location connection
(`plg.locationGroup?.locations`, null group collapsed to a null connection)
and the zone connection. -/
structure ProfileLocationGroup where
  locations : Conn LocNode
  locationGroupZones : Conn ZoneNode
  deriving DecidableEq

/-- One delivery profile. -/
structure DeliveryProfile where
  profileLocationGroups : List ProfileLocationGroup
  deriving DecidableEq

/-- `deliveryProfilesData?.deliveryProfiles?.nodes ?? []`. -/
abbrev DeliveryGraph := List DeliveryProfile

/-- Per-location capability flags. -/
@[ext] structure Flags where
  hasShipping : Bool
  hasLocalDelivery : Bool
  deriving DecidableEq

/-- Pointwise OR of capability flags (the merge `cur.x || x` in the source). -/
def orFlags (a b : Flags) : Flags :=
  ⟨a.hasShipping || b.hasShipping, a.hasLocalDelivery || b.hasLocalDelivery⟩

/-- Flags contributed by one method definition: inactive methods and methods
without a rate provider contribute nothing; `DeliveryParticipant` sets
shipping (and local delivery when the name matches); `DeliveryRateDefinition`
sets local delivery when the name matches, otherwise shipping. -/
def methodFlags (m : MethodDef) : Flags :=
  if !m.active then ⟨false, false⟩
  else
    match m.rateProvider with
    | none => ⟨false, false⟩
    | some t =>
        if t = "DeliveryParticipant" then
          ⟨true, isLocalDeliveryMethodName (.str (m.name.getD ""))⟩
        else if t = "DeliveryRateDefinition" then
          if isLocalDeliveryMethodName (.str (m.name.getD "")) then ⟨false, true⟩
          else ⟨true, false⟩
        else ⟨false, false⟩

/-- The zone loop body: local delivery from the zone's own name
(`zoneNode.zone?.name ?? ""`), OR-accumulated with each method's flags. -/
def zoneFlags (z : ZoneNode) : Flags :=
  (getNodes z.methodDefinitions).foldl (fun acc m => orFlags acc (methodFlags m))
    ⟨false, isLocalDeliveryMethodName (.str (z.zoneName.getD ""))⟩

/-- The per-group accumulated `hasShipping` / `hasLocalDelivery` pair. -/
def groupFlags (g : ProfileLocationGroup) : Flags :=
  (getNodes g.locationGroupZones).foldl (fun acc z => orFlags acc (zoneFlags z))
    ⟨false, false⟩

/-- `locNodes.map((n) => n.id).filter(Boolean)`: the group's member location
ids, dropping null and empty ids. -/
def groupLocationIds (g : ProfileLocationGroup) : List String :=
  ((getNodes g.locations).map LocNode.id).filterMap
    (fun o => match o with
      | some s => if s = "" then none else some s
      | none => none)

/-- Merging one group into the map: for each member id, OR the group flags
into the current entry (`map.get(lid) || {hasShipping:false, ...}`). -/
def applyGroup (m : String → Flags) (g : ProfileLocationGroup) : String → Flags :=
  (groupLocationIds g).foldl
    (fun acc lid => Function.update acc lid (orFlags (acc lid) (groupFlags g))) m

/-- `buildLocationDeliveryFlags` from `apps.location-stock.js`. The JS `Map`
is modelled as a total function defaulting to both-false, matching the
consumer's `map.get(id) ?? {hasShipping:false, hasLocalDelivery:false}`. -/
def buildLocationDeliveryFlags (graph : DeliveryGraph) : String → Flags :=
  graph.foldl (fun m p => p.profileLocationGroups.foldl applyGroup m)
    (fun _ => ⟨false, false⟩)

/-- Specification form of the aggregate: a flag is set for a location exactly
when some group containing it has that group flag. -/
def flagSpec (graph : DeliveryGraph) (lid : String) : Flags :=
  ⟨graph.any (fun p => p.profileLocationGroups.any
      (fun g => decide (lid ∈ groupLocationIds g) && (groupFlags g).hasShipping)),
   graph.any (fun p => p.profileLocationGroups.any
      (fun g => decide (lid ∈ groupLocationIds g) && (groupFlags g).hasLocalDelivery))⟩

lemma orFlags_false_right (a : Flags) : orFlags a ⟨false, false⟩ = a := by
  cases a; simp [orFlags]

lemma orFlags_false_left (a : Flags) : orFlags ⟨false, false⟩ a = a := by
  cases a; simp [orFlags]

lemma orFlags_assoc (a b c : Flags) : orFlags (orFlags a b) c = orFlags a (orFlags b c) := by
  cases a; cases b; cases c; simp [orFlags, Bool.or_assoc]

lemma foldl_orFlags {α : Type} (f : α → Flags) (l : List α) (acc : Flags) :
    l.foldl (fun a e => orFlags a (f e)) acc =
      orFlags acc ⟨l.any (fun e => (f e).hasShipping), l.any (fun e => (f e).hasLocalDelivery)⟩ := by
  induction l generalizing acc with
  | nil => simp [orFlags_false_right]
  | cons e rest ih =>
      simp only [List.foldl_cons, ih, List.any_cons]
      cases acc; cases hfe : f e
      simp [orFlags, Bool.or_assoc]

lemma memberFold_apply (ids : List String) (f : Flags) (m : String → Flags) (x : String) :
    (ids.foldl (fun acc lid => Function.update acc lid (orFlags (acc lid) f)) m) x =
      orFlags (m x) (if x ∈ ids then f else ⟨false, false⟩) := by
  induction ids generalizing m with
  | nil => simp [orFlags_false_right]
  | cons i rest ih =>
      simp only [List.foldl_cons, ih]
      by_cases hx : x = i
      · subst hx
        rw [Function.update_same]
        by_cases hr : x ∈ rest <;>
          simp [hr, orFlags_assoc, orFlags, orFlags_false_right]
      · rw [Function.update_noteq hx]
        simp [List.mem_cons, hx]

lemma applyGroup_apply (m : String → Flags) (g : ProfileLocationGroup) (x : String) :
    applyGroup m g x =
      orFlags (m x) (if x ∈ groupLocationIds g then groupFlags g else ⟨false, false⟩) :=
  memberFold_apply _ _ _ _

lemma groupsFold_apply (gs : List ProfileLocationGroup) (m : String → Flags) (x : String) :
    (gs.foldl applyGroup m) x =
      orFlags (m x)
        ⟨gs.any (fun g => decide (x ∈ groupLocationIds g) && (groupFlags g).hasShipping),
         gs.any (fun g => decide (x ∈ groupLocationIds g) && (groupFlags g).hasLocalDelivery)⟩ := by
  induction gs generalizing m with
  | nil => simp [orFlags_false_right]
  | cons g rest ih =>
      simp only [List.foldl_cons, ih, applyGroup_apply, List.any_cons]
      by_cases hg : x ∈ groupLocationIds g <;>
        cases hmx : m x <;> cases hgf : groupFlags g <;>
          simp [hg, orFlags, Bool.or_assoc]

lemma graphFold_apply (graph : DeliveryGraph) (m : String → Flags) (x : String) :
    (graph.foldl (fun acc p => p.profileLocationGroups.foldl applyGroup acc) m) x =
      orFlags (m x)
        ⟨graph.any (fun p => p.profileLocationGroups.any
            (fun g => decide (x ∈ groupLocationIds g) && (groupFlags g).hasShipping)),
         graph.any (fun p => p.profileLocationGroups.any
            (fun g => decide (x ∈ groupLocationIds g) && (groupFlags g).hasLocalDelivery))⟩ := by
  induction graph generalizing m with
  | nil => simp [orFlags_false_right]
  | cons p rest ih =>
      simp only [List.foldl_cons, ih, groupsFold_apply, List.any_cons]
      cases hmx : m x
      simp [orFlags, Bool.or_assoc]

lemma buildLocationDeliveryFlags_eq_spec (graph : DeliveryGraph) (x : String) :
    buildLocationDeliveryFlags graph x = flagSpec graph x := by
  unfold buildLocationDeliveryFlags flagSpec
  rw [graphFold_apply, orFlags_false_left]

lemma zoneFlags_shipping (z : ZoneNode) :
    (zoneFlags z).hasShipping =
      (getNodes z.methodDefinitions).any (fun m => (methodFlags m).hasShipping) := by
  rw [zoneFlags, foldl_orFlags]; simp [orFlags]

lemma zoneFlags_local (z : ZoneNode) :
    (zoneFlags z).hasLocalDelivery =
      (isLocalDeliveryMethodName (.str (z.zoneName.getD "")) ||
        (getNodes z.methodDefinitions).any (fun m => (methodFlags m).hasLocalDelivery)) := by
  rw [zoneFlags, foldl_orFlags]; simp [orFlags]

lemma groupFlags_shipping (g : ProfileLocationGroup) :
    (groupFlags g).hasShipping =
      (getNodes g.locationGroupZones).any (fun z => (zoneFlags z).hasShipping) := by
  rw [groupFlags, foldl_orFlags, orFlags_false_left]

lemma groupFlags_local (g : ProfileLocationGroup) :
    (groupFlags g).hasLocalDelivery =
      (getNodes g.locationGroupZones).any (fun z => (zoneFlags z).hasLocalDelivery) := by
  rw [groupFlags, foldl_orFlags, orFlags_false_left]

lemma spec_shipping_intro {graph : DeliveryGraph} {p : DeliveryProfile}
    {g : ProfileLocationGroup} {lid : String}
    (hp : p ∈ graph) (hg : g ∈ p.profileLocationGroups) (hm : lid ∈ groupLocationIds g)
    (hs : (groupFlags g).hasShipping = true) :
    (buildLocationDeliveryFlags graph lid).hasShipping = true := by
  rw [buildLocationDeliveryFlags_eq_spec]
  exact List.any_eq_true.mpr ⟨p, hp, List.any_eq_true.mpr ⟨g, hg, by simp [hm, hs]⟩⟩

lemma spec_local_intro {graph : DeliveryGraph} {p : DeliveryProfile}
    {g : ProfileLocationGroup} {lid : String}
    (hp : p ∈ graph) (hg : g ∈ p.profileLocationGroups) (hm : lid ∈ groupLocationIds g)
    (hs : (groupFlags g).hasLocalDelivery = true) :
    (buildLocationDeliveryFlags graph lid).hasLocalDelivery = true := by
  rw [buildLocationDeliveryFlags_eq_spec]
  exact List.any_eq_true.mpr ⟨p, hp, List.any_eq_true.mpr ⟨g, hg, by simp [hm, hs]⟩⟩

/-- A zone with its inactive method definitions removed. -/
def stripInactiveZone (z : ZoneNode) : ZoneNode :=
  ⟨z.zoneName, .nodes ((getNodes z.methodDefinitions).filter (fun m => m.active))⟩

/-- A group with every zone's inactive method definitions removed. -/
def stripInactiveGroup (g : ProfileLocationGroup) : ProfileLocationGroup :=
  ⟨g.locations, .nodes ((getNodes g.locationGroupZones).map stripInactiveZone)⟩

/-- A profile with all inactive method definitions removed. -/
def stripInactiveProfile (p : DeliveryProfile) : DeliveryProfile :=
  ⟨p.profileLocationGroups.map stripInactiveGroup⟩

/-- The delivery graph with every inactive method definition removed. -/
def stripInactive (graph : DeliveryGraph) : DeliveryGraph :=
  graph.map stripInactiveProfile

lemma any_filter_of_false {α : Type} {l : List α} {p f : α → Bool}
    (h : ∀ e ∈ l, p e = false → f e = false) :
    (l.filter p).any f = l.any f := by
  induction l with
  | nil => rfl
  | cons e rest ih =>
      have hrest : ∀ x ∈ rest, p x = false → f x = false :=
        fun x hx => h x (List.mem_cons_of_mem _ hx)
      cases hpe : p e with
      | true => simp [List.filter_cons, hpe, ih hrest]
      | false =>
          have hfe := h e (List.mem_cons_self _ _) hpe
          simp [List.filter_cons, hpe, ih hrest, hfe]

lemma methodFlags_inactive {m : MethodDef} (h : m.active = false) :
    methodFlags m = ⟨false, false⟩ := by
  simp [methodFlags, h]

lemma getNodes_nodes {α : Type} (l : List α) : getNodes (.nodes l) = l := rfl

lemma zoneFlags_stripInactive (z : ZoneNode) :
    zoneFlags (stripInactiveZone z) = zoneFlags z := by
  ext
  · rw [zoneFlags_shipping, zoneFlags_shipping]
    simp only [stripInactiveZone, getNodes_nodes]
    exact any_filter_of_false (fun e _ he => by rw [methodFlags_inactive he])
  · rw [zoneFlags_local, zoneFlags_local]
    simp only [stripInactiveZone, getNodes_nodes]
    rw [any_filter_of_false (fun e _ he => by rw [methodFlags_inactive he])]

lemma groupLocationIds_stripInactive (g : ProfileLocationGroup) :
    groupLocationIds (stripInactiveGroup g) = groupLocationIds g := rfl

lemma any_congr_fn {α : Type} {l : List α} {f g : α → Bool}
    (h : ∀ e ∈ l, f e = g e) : l.any f = l.any g := by
  induction l with
  | nil => rfl
  | cons e rest ih =>
      simp only [List.any_cons, h e (List.mem_cons_self _ _),
        ih fun x hx => h x (List.mem_cons_of_mem _ hx)]

lemma groupFlags_stripInactive (g : ProfileLocationGroup) :
    groupFlags (stripInactiveGroup g) = groupFlags g := by
  ext
  · rw [groupFlags_shipping, groupFlags_shipping]
    simp only [stripInactiveGroup, getNodes_nodes, List.any_map, Function.comp_def]
    exact any_congr_fn
      (fun z _ => congrArg Flags.hasShipping (zoneFlags_stripInactive z))
  · rw [groupFlags_local, groupFlags_local]
    simp only [stripInactiveGroup, getNodes_nodes, List.any_map, Function.comp_def]
    exact any_congr_fn
      (fun z _ => congrArg Flags.hasLocalDelivery (zoneFlags_stripInactive z))

lemma methodFlags_participant {m : MethodDef} (ha : m.active = true)
    (hrp : m.rateProvider = some "DeliveryParticipant") :
    methodFlags m = ⟨true, isLocalDeliveryMethodName (.str (m.name.getD ""))⟩ := by
  simp [methodFlags, ha, hrp]

lemma methodFlags_rateDef {m : MethodDef} (ha : m.active = true)
    (hrp : m.rateProvider = some "DeliveryRateDefinition") :
    methodFlags m =
      if isLocalDeliveryMethodName (.str (m.name.getD "")) then ⟨false, true⟩
      else ⟨true, false⟩ := by
  simp [methodFlags, ha, hrp]

lemma zone_shipping_of_method {z : ZoneNode} {m : MethodDef}
    (hm : m ∈ getNodes z.methodDefinitions) (h : (methodFlags m).hasShipping = true) :
    (zoneFlags z).hasShipping = true := by
  rw [zoneFlags_shipping]
  exact List.any_eq_true.mpr ⟨m, hm, h⟩

lemma zone_local_of_method {z : ZoneNode} {m : MethodDef}
    (hm : m ∈ getNodes z.methodDefinitions) (h : (methodFlags m).hasLocalDelivery = true) :
    (zoneFlags z).hasLocalDelivery = true := by
  rw [zoneFlags_local]
  have hany : (getNodes z.methodDefinitions).any
      (fun e => (methodFlags e).hasLocalDelivery) = true :=
    List.any_eq_true.mpr ⟨m, hm, h⟩
  simp [hany]

lemma group_shipping_of_zone {g : ProfileLocationGroup} {z : ZoneNode}
    (hz : z ∈ getNodes g.locationGroupZones) (h : (zoneFlags z).hasShipping = true) :
    (groupFlags g).hasShipping = true := by
  rw [groupFlags_shipping]
  exact List.any_eq_true.mpr ⟨z, hz, h⟩

lemma group_local_of_zone {g : ProfileLocationGroup} {z : ZoneNode}
    (hz : z ∈ getNodes g.locationGroupZones) (h : (zoneFlags z).hasLocalDelivery = true) :
    (groupFlags g).hasLocalDelivery = true := by
  rw [groupFlags_local]
  exact List.any_eq_true.mpr ⟨z, hz, h⟩

lemma stripInactive_pointwise (graph : DeliveryGraph) (x : String) :
    buildLocationDeliveryFlags (stripInactive graph) x
      = buildLocationDeliveryFlags graph x := by
  rw [buildLocationDeliveryFlags_eq_spec, buildLocationDeliveryFlags_eq_spec]
  unfold flagSpec stripInactive
  rw [List.any_map, List.any_map]
  simp only [Flags.mk.injEq]
  constructor <;>
    refine any_congr_fn (fun p _ => ?_) <;>
    · simp only [Function.comp, stripInactiveProfile, List.any_map]
      refine any_congr_fn (fun g _ => ?_)
      simp only [Function.comp, groupLocationIds_stripInactive, groupFlags_stripInactive]

/-- C3: per location group: a zone whose own name is local-delivery-like marks
`hasLocalDelivery` for every member location; an active method with the
`DeliveryParticipant` provider kind sets `hasShipping` (and additionally
`hasLocalDelivery` when its name is local-delivery-like); an active method
with the `DeliveryRateDefinition` provider kind sets `hasLocalDelivery` when
its name is local-delivery-like and otherwise sets `hasShipping`; inactive
methods contribute nothing (removing them leaves the aggregate unchanged). -/
theorem buildLocationDeliveryFlags_rules (graph : DeliveryGraph)
    (p : DeliveryProfile) (g : ProfileLocationGroup) (lid : String)
    (hp : p ∈ graph) (hg : g ∈ p.profileLocationGroups)
    (hm : lid ∈ groupLocationIds g) :
    (∀ z ∈ getNodes g.locationGroupZones,
        isLocalDeliveryMethodName (.str (z.zoneName.getD "")) = true →
        (buildLocationDeliveryFlags graph lid).hasLocalDelivery = true)
    ∧ (∀ z ∈ getNodes g.locationGroupZones, ∀ m ∈ getNodes z.methodDefinitions,
        m.active = true → m.rateProvider = some "DeliveryParticipant" →
        (buildLocationDeliveryFlags graph lid).hasShipping = true ∧
          (isLocalDeliveryMethodName (.str (m.name.getD "")) = true →
            (buildLocationDeliveryFlags graph lid).hasLocalDelivery = true))
    ∧ (∀ z ∈ getNodes g.locationGroupZones, ∀ m ∈ getNodes z.methodDefinitions,
        m.active = true → m.rateProvider = some "DeliveryRateDefinition" →
        (isLocalDeliveryMethodName (.str (m.name.getD "")) = true →
            (buildLocationDeliveryFlags graph lid).hasLocalDelivery = true) ∧
          (isLocalDeliveryMethodName (.str (m.name.getD "")) = false →
            (buildLocationDeliveryFlags graph lid).hasShipping = true))
    ∧ (∀ x, buildLocationDeliveryFlags (stripInactive graph) x
          = buildLocationDeliveryFlags graph x) := by
  refine ⟨?_, ?_, ?_, stripInactive_pointwise graph⟩
  · intro z hz hname
    refine spec_local_intro hp hg hm (group_local_of_zone hz ?_)
    rw [zoneFlags_local, hname]
    rfl
  · intro z hz m hmd ha hrp
    constructor
    · refine spec_shipping_intro hp hg hm (group_shipping_of_zone hz ?_)
      exact zone_shipping_of_method hmd (by rw [methodFlags_participant ha hrp])
    · intro hname
      refine spec_local_intro hp hg hm (group_local_of_zone hz ?_)
      exact zone_local_of_method hmd (by rw [methodFlags_participant ha hrp]; exact hname)
  · intro z hz m hmd ha hrp
    constructor
    · intro hname
      refine spec_local_intro hp hg hm (group_local_of_zone hz ?_)
      exact zone_local_of_method hmd (by rw [methodFlags_rateDef ha hrp, hname]; rfl)
    · intro hname
      refine spec_shipping_intro hp hg hm (group_shipping_of_zone hz ?_)
      exact zone_shipping_of_method hmd (by rw [methodFlags_rateDef ha hrp, hname]; rfl)

/-- Witness for C3 on a one-profile graph: a local-delivery-named zone, an
active participant method, and an active local-delivery-named rate-definition
method, all observed at member location "L1". -/
theorem buildLocationDeliveryFlags_rules_witness :
    (buildLocationDeliveryFlags
        [⟨[⟨.nodes [⟨some "L1"⟩],
            .nodes [⟨some "Zone A",
              .nodes [⟨true, some "Standard", some "DeliveryParticipant"⟩,
                      ⟨true, some "Local Delivery", some "DeliveryRateDefinition"⟩]⟩]⟩]⟩]
        "L1").hasShipping = true ∧
    (buildLocationDeliveryFlags
        [⟨[⟨.nodes [⟨some "L1"⟩],
            .nodes [⟨some "Zone A",
              .nodes [⟨true, some "Standard", some "DeliveryParticipant"⟩,
                      ⟨true, some "Local Delivery", some "DeliveryRateDefinition"⟩]⟩]⟩]⟩]
        "L1").hasLocalDelivery = true := by
  have h := buildLocationDeliveryFlags_rules
    [⟨[⟨.nodes [⟨some "L1"⟩],
        .nodes [⟨some "Zone A",
          .nodes [⟨true, some "Standard", some "DeliveryParticipant"⟩,
                  ⟨true, some "Local Delivery", some "DeliveryRateDefinition"⟩]⟩]⟩]⟩]
    ⟨[⟨.nodes [⟨some "L1"⟩],
        .nodes [⟨some "Zone A",
          .nodes [⟨true, some "Standard", some "DeliveryParticipant"⟩,
                  ⟨true, some "Local Delivery", some "DeliveryRateDefinition"⟩]⟩]⟩]⟩
    ⟨.nodes [⟨some "L1"⟩],
      .nodes [⟨some "Zone A",
        .nodes [⟨true, some "Standard", some "DeliveryParticipant"⟩,
                ⟨true, some "Local Delivery", some "DeliveryRateDefinition"⟩]⟩]⟩
    "L1" (by decide) (by decide) (by decide)
  refine ⟨?_, ?_⟩
  · exact (h.2.1
      ⟨some "Zone A",
        .nodes [⟨true, some "Standard", some "DeliveryParticipant"⟩,
                ⟨true, some "Local Delivery", some "DeliveryRateDefinition"⟩]⟩
      (by decide) ⟨true, some "Standard", some "DeliveryParticipant"⟩
      (by decide) rfl rfl).1
  · exact (h.2.2.1
      ⟨some "Zone A",
        .nodes [⟨true, some "Standard", some "DeliveryParticipant"⟩,
                ⟨true, some "Local Delivery", some "DeliveryRateDefinition"⟩]⟩
      (by decide)
      ⟨true, some "Local Delivery", some "DeliveryRateDefinition"⟩
      (by decide) rfl rfl).1 (by decide)

/-- A zone with its provider-less method definitions removed. -/
def stripNoProviderZone (z : ZoneNode) : ZoneNode :=
  ⟨z.zoneName, .nodes ((getNodes z.methodDefinitions).filter
    (fun m => m.rateProvider.isSome))⟩

/-- A group with every zone's provider-less method definitions removed. -/
def stripNoProviderGroup (g : ProfileLocationGroup) : ProfileLocationGroup :=
  ⟨g.locations, .nodes ((getNodes g.locationGroupZones).map stripNoProviderZone)⟩

/-- A profile with all provider-less method definitions removed. -/
def stripNoProviderProfile (p : DeliveryProfile) : DeliveryProfile :=
  ⟨p.profileLocationGroups.map stripNoProviderGroup⟩

/-- The delivery graph with every method definition whose `rateProvider` is
null or absent removed. -/
def stripNoProvider (graph : DeliveryGraph) : DeliveryGraph :=
  graph.map stripNoProviderProfile

lemma methodFlags_noProvider {m : MethodDef} (h : m.rateProvider = none) :
    methodFlags m = ⟨false, false⟩ := by
  cases ha : m.active <;> simp [methodFlags, h, ha]

lemma zoneFlags_stripNoProvider (z : ZoneNode) :
    zoneFlags (stripNoProviderZone z) = zoneFlags z := by
  have hflat : ∀ e : MethodDef, e.rateProvider.isSome = false →
      methodFlags e = ⟨false, false⟩ := by
    intro e he
    exact methodFlags_noProvider (Option.not_isSome_iff_eq_none.mp (by simp [he]))
  ext
  · rw [zoneFlags_shipping, zoneFlags_shipping]
    simp only [stripNoProviderZone, getNodes_nodes]
    exact any_filter_of_false (fun e _ he => by rw [hflat e he])
  · rw [zoneFlags_local, zoneFlags_local]
    simp only [stripNoProviderZone, getNodes_nodes]
    rw [any_filter_of_false (fun e _ he => by rw [hflat e he])]

lemma groupLocationIds_stripNoProvider (g : ProfileLocationGroup) :
    groupLocationIds (stripNoProviderGroup g) = groupLocationIds g := rfl

lemma groupFlags_stripNoProvider (g : ProfileLocationGroup) :
    groupFlags (stripNoProviderGroup g) = groupFlags g := by
  ext
  · rw [groupFlags_shipping, groupFlags_shipping]
    simp only [stripNoProviderGroup, getNodes_nodes, List.any_map, Function.comp_def]
    exact any_congr_fn
      (fun z _ => congrArg Flags.hasShipping (zoneFlags_stripNoProvider z))
  · rw [groupFlags_local, groupFlags_local]
    simp only [stripNoProviderGroup, getNodes_nodes, List.any_map, Function.comp_def]
    exact any_congr_fn
      (fun z _ => congrArg Flags.hasLocalDelivery (zoneFlags_stripNoProvider z))

/-- C10: an active method definition with a null or absent `rateProvider`
contributes nothing — its flag contribution is both-false, and removing every
provider-less method from the graph leaves the (total, never-failing)
aggregate map unchanged at every location. -/
theorem buildLocationDeliveryFlags_noProvider (graph : DeliveryGraph)
    (m : MethodDef) (hm : m.rateProvider = none) :
    methodFlags m = ⟨false, false⟩ ∧
    ∀ x, buildLocationDeliveryFlags (stripNoProvider graph) x
        = buildLocationDeliveryFlags graph x := by
  refine ⟨methodFlags_noProvider hm, fun x => ?_⟩
  rw [buildLocationDeliveryFlags_eq_spec, buildLocationDeliveryFlags_eq_spec]
  unfold flagSpec stripNoProvider
  rw [List.any_map, List.any_map]
  simp only [Flags.mk.injEq]
  constructor <;>
    refine any_congr_fn (fun p _ => ?_) <;>
    · simp only [Function.comp, stripNoProviderProfile, List.any_map]
      refine any_congr_fn (fun g _ => ?_)
      simp only [Function.comp, groupLocationIds_stripNoProvider,
        groupFlags_stripNoProvider]

/-- Witness for C10: an active provider-less method on a concrete graph. -/
theorem buildLocationDeliveryFlags_noProvider_witness :
    methodFlags ⟨true, some "Mystery", none⟩ = ⟨false, false⟩ ∧
    ∀ x, buildLocationDeliveryFlags
        (stripNoProvider [⟨[⟨.nodes [⟨some "L1"⟩],
            .nodes [⟨some "Zone A", .nodes [⟨true, some "Mystery", none⟩]⟩]⟩]⟩]) x
      = buildLocationDeliveryFlags
        [⟨[⟨.nodes [⟨some "L1"⟩],
            .nodes [⟨some "Zone A", .nodes [⟨true, some "Mystery", none⟩]⟩]⟩]⟩] x :=
  buildLocationDeliveryFlags_noProvider _ ⟨true, some "Mystery", none⟩ rfl


/-- C8: the classifier is a case-insensitive substring match against the fixed
keyword table: true on "Local Delivery" and "ローカル配送", false on
"Standard Shipping", false on the empty string and on every non-string input. -/
theorem isLocalDeliveryMethodName_table (j : JVal) (h : jvalIsString j = false) :
    isLocalDeliveryMethodName (.str "Local Delivery") = true ∧
    isLocalDeliveryMethodName (.str "ローカル配送") = true ∧
    isLocalDeliveryMethodName (.str "Standard Shipping") = false ∧
    isLocalDeliveryMethodName (.str "") = false ∧
    isLocalDeliveryMethodName j = false := by
  refine ⟨by decide, by decide, by decide, by decide, ?_⟩
  cases j <;> simp_all [isLocalDeliveryMethodName, jvalIsString]

/-- Witness for C8 at the non-string input `null`. -/
theorem isLocalDeliveryMethodName_table_witness :
    jvalIsString .null = false ∧
    (isLocalDeliveryMethodName (.str "Local Delivery") = true ∧
     isLocalDeliveryMethodName (.str "ローカル配送") = true ∧
     isLocalDeliveryMethodName (.str "Standard Shipping") = false ∧
     isLocalDeliveryMethodName (.str "") = false ∧
     isLocalDeliveryMethodName .null = false) :=
  ⟨rfl, isLocalDeliveryMethodName_table .null rfl⟩

/-- Sublist-with-relation: `ExtList R l l'` holds when `l'` extends `l` by
inserting extra elements, with each kept element related by `R` to its
counterpart. -/
inductive ExtList (R : α → β → Prop) : List α → List β → Prop where
  | nil : ExtList R [] []
  | cons {a b la lb} : R a b → ExtList R la lb → ExtList R (a :: la) (b :: lb)
  | skip {b la lb} : ExtList R la lb → ExtList R la (b :: lb)

/-- Zone extension: same zone name, more (or equal) method definitions. -/
def ZoneExt (z z' : ZoneNode) : Prop :=
  z.zoneName = z'.zoneName ∧
    List.Sublist (getNodes z.methodDefinitions) (getNodes z'.methodDefinitions)

/-- Group extension: more member locations and extended zones. -/
def GroupExt (g g' : ProfileLocationGroup) : Prop :=
  List.Sublist (getNodes g.locations) (getNodes g'.locations) ∧
    ExtList ZoneExt (getNodes g.locationGroupZones) (getNodes g'.locationGroupZones)

/-- Profile extension: extended location groups. -/
def ProfileExt (p p' : DeliveryProfile) : Prop :=
  ExtList GroupExt p.profileLocationGroups p'.profileLocationGroups

/-- Graph extension: additional profiles, location groups, zones or methods. -/
def GraphExt : DeliveryGraph → DeliveryGraph → Prop := ExtList ProfileExt

lemma ExtList.any_mono {R : α → β → Prop} {f : α → Bool} {g : β → Bool}
    {l : List α} {l' : List β} (h : ExtList R l l')
    (hfg : ∀ a b, R a b → f a = true → g b = true) :
    l.any f = true → l'.any g = true := by
  induction h with
  | nil => intro h; exact h
  | cons hr _ ih =>
      intro hany
      rcases List.any_eq_true.mp hany with ⟨x, hx, hfx⟩
      rcases List.mem_cons.mp hx with hx | hx
      · subst hx
        simp [List.any_cons, hfg _ _ hr hfx]
      · simp [List.any_cons, ih (List.any_eq_true.mpr ⟨x, hx, hfx⟩)]
  | skip _ ih =>
      intro hany
      simp [List.any_cons, ih hany]

lemma sublist_any_mono {l l' : List α}
    (h : List.Sublist l l') {f : α → Bool} :
    l.any f = true → l'.any f = true := by
  intro hany
  rcases List.any_eq_true.mp hany with ⟨x, hx, hfx⟩
  exact List.any_eq_true.mpr ⟨x, h.subset hx, hfx⟩

lemma zoneExt_shipping_mono {z z' : ZoneNode} (h : ZoneExt z z') :
    (zoneFlags z).hasShipping = true → (zoneFlags z').hasShipping = true := by
  obtain ⟨-, hsub⟩ := h
  rw [zoneFlags_shipping, zoneFlags_shipping]
  exact sublist_any_mono hsub

lemma zoneExt_local_mono {z z' : ZoneNode} (h : ZoneExt z z') :
    (zoneFlags z).hasLocalDelivery = true → (zoneFlags z').hasLocalDelivery = true := by
  obtain ⟨hname, hsub⟩ := h
  rw [zoneFlags_local, zoneFlags_local, hname]
  intro hor
  rcases Bool.or_eq_true_iff.mp hor with hn | hany
  · simp [hn]
  · simp [sublist_any_mono hsub hany]

lemma groupExt_member_mono {g g' : ProfileLocationGroup} (h : GroupExt g g')
    {lid : String} : lid ∈ groupLocationIds g → lid ∈ groupLocationIds g' := by
  obtain ⟨hsub, -⟩ := h
  intro hm
  unfold groupLocationIds at hm ⊢
  rcases List.mem_filterMap.mp hm with ⟨o, ho, hcase⟩
  rcases List.mem_map.mp ho with ⟨n, hn, hid⟩
  exact List.mem_filterMap.mpr
    ⟨o, List.mem_map.mpr ⟨n, hsub.subset hn, hid⟩, hcase⟩

lemma groupExt_shipping_mono {g g' : ProfileLocationGroup} (h : GroupExt g g') :
    (groupFlags g).hasShipping = true → (groupFlags g').hasShipping = true := by
  obtain ⟨-, hz⟩ := h
  rw [groupFlags_shipping, groupFlags_shipping]
  exact hz.any_mono (fun z z' hzz => zoneExt_shipping_mono hzz)

lemma groupExt_local_mono {g g' : ProfileLocationGroup} (h : GroupExt g g') :
    (groupFlags g).hasLocalDelivery = true →
      (groupFlags g').hasLocalDelivery = true := by
  obtain ⟨-, hz⟩ := h
  rw [groupFlags_local, groupFlags_local]
  exact hz.any_mono (fun z z' hzz => zoneExt_local_mono hzz)

/-- C4: the aggregate is monotonic — extending the delivery graph with
additional profiles, location groups, zones or methods never resets a true
capability flag to false for any location. -/
theorem buildLocationDeliveryFlags_monotone (G G' : DeliveryGraph)
    (hext : GraphExt G G') (lid : String) :
    ((buildLocationDeliveryFlags G lid).hasShipping = true →
        (buildLocationDeliveryFlags G' lid).hasShipping = true) ∧
    ((buildLocationDeliveryFlags G lid).hasLocalDelivery = true →
        (buildLocationDeliveryFlags G' lid).hasLocalDelivery = true) := by
  rw [buildLocationDeliveryFlags_eq_spec, buildLocationDeliveryFlags_eq_spec]
  unfold flagSpec
  constructor
  · refine ExtList.any_mono hext (fun p p' hp => ?_)
    refine ExtList.any_mono hp (fun g g' hg => ?_)
    intro hb
    rcases Bool.and_eq_true_iff.mp hb with ⟨hmem, hflag⟩
    exact Bool.and_eq_true_iff.mpr
      ⟨decide_eq_true (groupExt_member_mono hg (of_decide_eq_true hmem)),
       groupExt_shipping_mono hg hflag⟩
  · refine ExtList.any_mono hext (fun p p' hp => ?_)
    refine ExtList.any_mono hp (fun g g' hg => ?_)
    intro hb
    rcases Bool.and_eq_true_iff.mp hb with ⟨hmem, hflag⟩
    exact Bool.and_eq_true_iff.mpr
      ⟨decide_eq_true (groupExt_member_mono hg (of_decide_eq_true hmem)),
       groupExt_local_mono hg hflag⟩

/-- A one-profile graph used to witness monotonicity. -/
def GmonoSmall : DeliveryGraph :=
  [⟨[⟨.nodes [⟨some "L1"⟩],
      .nodes [⟨some "Zone A",
        .nodes [⟨true, some "Standard", some "DeliveryParticipant"⟩]⟩]⟩]⟩]

/-- `GmonoSmall` extended with a member location, a method and a profile. -/
def GmonoBig : DeliveryGraph :=
  [⟨[⟨.nodes [⟨some "L1"⟩, ⟨some "L2"⟩],
      .nodes [⟨some "Zone A",
        .nodes [⟨true, some "Standard", some "DeliveryParticipant"⟩,
                ⟨true, some "Local Delivery", some "DeliveryRateDefinition"⟩]⟩]⟩]⟩,
   ⟨[]⟩]

lemma gmono_ext : GraphExt GmonoSmall GmonoBig := by
  refine ExtList.cons ?_ (ExtList.skip ExtList.nil)
  refine ExtList.cons ?_ ExtList.nil
  constructor
  · exact List.Sublist.cons₂ _ (List.Sublist.cons _ List.Sublist.slnil)
  · refine ExtList.cons ?_ ExtList.nil
    exact ⟨rfl, List.Sublist.cons₂ _ (List.Sublist.cons _ List.Sublist.slnil)⟩

/-- Witness for C4: the shipping flag of location "L1", true in the smaller
graph, stays true in the extended graph. -/
theorem buildLocationDeliveryFlags_monotone_witness :
    (buildLocationDeliveryFlags GmonoSmall "L1").hasShipping = true ∧
    (buildLocationDeliveryFlags GmonoBig "L1").hasShipping = true :=
  ⟨by decide,
   (buildLocationDeliveryFlags_monotone GmonoSmall GmonoBig gmono_ext "L1").1
     (by decide)⟩

/-- One entry of the request's base stock list (`baseStocks` in the loader):
the per-location snapshot fields that `applyConfigToStocks` reads or copies.
`locationId` is `location.id ?? null`. -/
structure Stock where
  locationId : Option String
  locationName : String
  quantity : Int
  fulfillsOnlineOrders : Bool
  hasShipping : Bool
  hasLocalDelivery : Bool
  storePickupEnabled : Bool
  regionKey : String
  deriving DecidableEq

/-- A decorated stock row (`{...stock, displayName, sortOrder, fromConfig,
regionKey?, excludeFromNearby}`). `regionKey` is the possibly-overwritten
field: the config branch may store the matched region group's `name` value
(any JSON value, `none` modelling `undefined` when the group has no name);
the other branches keep the snapshot's own string key. -/
structure StockRow where
  locationId : Option String
  locationName : String
  quantity : Int
  fulfillsOnlineOrders : Bool
  hasShipping : Bool
  hasLocalDelivery : Bool
  storePickupEnabled : Bool
  regionKey : Option JVal
  displayName : String
  sortOrder : Int
  fromConfig : Bool
  excludeFromNearby : Bool

/-- `Array.isArray(config?.locations) ? config.locations : []`. -/
def locationsConfigOf (config : JVal) : List JVal :=
  match getField config "locations" with
  | some (.arr l) => l
  | _ => []

/-- `Array.isArray(config?.regionGroups) ? config.regionGroups : []`. -/
def regionGroupsOf (config : JVal) : List JVal :=
  match getField config "regionGroups" with
  | some (.arr l) => l
  | _ => []

/-- The `regionGroupById` map (`new Map(regionGroups.filter((g) => g && g.id)
.map((g) => [g.id, g.name]))`) looked up at `key`: outer `some` means the map
has the key (last duplicate wins), the inner option is the stored `g.name`
(`none` modelling `undefined`). -/
def regionGroupGet (groups : List JVal) (key : JVal) : Option (Option JVal) :=
  groups.foldl
    (fun acc g =>
      if truthy g then
        match getField g "id" with
        | some idv =>
            if truthy idv && jvalPrimEq idv key then some (getField g "name") else acc
        | none => acc
      else acc)
    none

/-- The `mapById` record map (`forEach` with `if (!loc || !loc.locationId)
return; mapById.set(loc.locationId, loc)`) looked up at `key`; a later record
with the same id overwrites an earlier one. -/
def recordsById (locs : List JVal) (key : JVal) : Option JVal :=
  locs.foldl
    (fun acc loc =>
      if truthy loc then
        match getField loc "locationId" with
        | some idv => if truthy idv && jvalPrimEq idv key then some loc else acc
        | none => acc
      else acc)
    none

/-- A snapshot's `locationId` as the JS value used for the map lookup. -/
def jsStockId : Option String → JVal
  | some s => .str s
  | none => .null

/-- `typeof config?.pinnedLocationId === "string" && trim !== "" ? trim :
null` (the computation repeated inside the decoration loop and in
`buildGlobalConfig`). -/
def pinnedIdOf (config : JVal) : Option String :=
  match getField config "pinnedLocationId" with
  | some (.str s) => if jsTrim s = "" then none else some (jsTrim s)
  | _ => none

/-- `cfg.enabled === false`. -/
def isEnabledFalse (cfg : JVal) : Bool :=
  match getField cfg "enabled" with
  | some (.bool false) => true
  | _ => false

/-- The row produced for a snapshot with no matching record (and for every
snapshot when the record list is empty): original name, sentinel sort order,
`fromConfig = false`. -/
def defaultRow (s : Stock) : StockRow :=
  { locationId := s.locationId, locationName := s.locationName,
    quantity := s.quantity, fulfillsOnlineOrders := s.fulfillsOnlineOrders,
    hasShipping := s.hasShipping, hasLocalDelivery := s.hasLocalDelivery,
    storePickupEnabled := s.storePickupEnabled,
    regionKey := some (.str s.regionKey),
    displayName := s.locationName, sortOrder := 999999,
    fromConfig := false, excludeFromNearby := false }

/-- The `regionKey` computed for an explicitly configured row: the pinned
sentinel, the matched region group's `name` value, or the unset sentinel. -/
def configRegionKey (config cfg : JVal) (stock : Stock) : Option JVal :=
  if (match pinnedIdOf config with
      | some p => stock.locationId == some p
      | none => false) then
    some (.str "__pinned__")
  else
    match getField cfg "regionGroupId" with
    | some rv =>
        if truthy rv then
          match regionGroupGet (regionGroupsOf config) rv with
          | some v => v
          | none => some (.str "未設定")
        else some (.str "未設定")
    | none => some (.str "未設定")

/-- The row built for a snapshot whose record `cfg` exists and is not
disabled. `displayName` models `cfg.publicName || stock.locationName` with a
non-string `publicName` treated as unset (the admin UI only ever writes
strings there). -/
def decoratedRow (config cfg : JVal) (stock : Stock) : StockRow :=
  { locationId := stock.locationId, locationName := stock.locationName,
    quantity := stock.quantity,
    fulfillsOnlineOrders := stock.fulfillsOnlineOrders,
    hasShipping := stock.hasShipping,
    hasLocalDelivery := stock.hasLocalDelivery,
    storePickupEnabled := stock.storePickupEnabled,
    regionKey := configRegionKey config cfg stock,
    displayName :=
      (match getField cfg "publicName" with
       | some (.str s) => if s = "" then stock.locationName else s
       | _ => stock.locationName),
    sortOrder :=
      (match getField cfg "sortOrder" with
       | some (.num n) => n
       | _ => 999999),
    fromConfig := true,
    excludeFromNearby :=
      (match getField cfg "excludeFromNearby" with
       | some v => truthy v
       | none => false) }

/-- The per-snapshot body of the decoration loop in `applyConfigToStocks`
(`.map(...)` composed with the `.filter(Boolean)` that removes the `null`
returned for `enabled === false` records). -/
def decorateOne (config : JVal) (stock : Stock) : Option StockRow :=
  match recordsById (locationsConfigOf config) (jsStockId stock.locationId) with
  | none => some (defaultRow stock)
  | some cfg =>
      if isEnabledFalse cfg then none
      else some (decoratedRow config cfg stock)

/-- Codepoint-order comparison of character lists (the model of
`localeCompare`'s ordering on the strings involved). -/
def charsLe : List Char → List Char → Bool
  | [], _ => true
  | _ :: _, [] => false
  | c :: cs, d :: ds =>
      if c.toNat < d.toNat then true
      else if d.toNat < c.toNat then false
      else charsLe cs ds

/-- String comparison used by the sort tie-break. -/
def strLeB (a b : String) : Bool := charsLe a.data b.data

lemma charsLe_cons_iff {a b : Char} {as bs : List Char} :
    charsLe (a :: as) (b :: bs) = true ↔
      (a.toNat < b.toNat ∨ (a.toNat = b.toNat ∧ charsLe as bs = true)) := by
  by_cases h1 : a.toNat < b.toNat
  · simp [charsLe, h1]
  · by_cases h2 : b.toNat < a.toNat
    · have hne : a.toNat ≠ b.toNat := Nat.ne_of_gt h2
      simp [charsLe, h1, h2, hne]
    · have heq : a.toNat = b.toNat :=
        Nat.le_antisymm (Nat.not_lt.mp h2) (Nat.not_lt.mp h1)
      simp [charsLe, h1, h2, heq]

lemma charsLe_total : ∀ a b : List Char, charsLe a b = true ∨ charsLe b a = true
  | [], _ => Or.inl rfl
  | _ :: _, [] => Or.inr rfl
  | a :: as, b :: bs => by
      rcases Nat.lt_trichotomy a.toNat b.toNat with h | h | h
      · exact Or.inl (charsLe_cons_iff.mpr (Or.inl h))
      · rcases charsLe_total as bs with ih | ih
        · exact Or.inl (charsLe_cons_iff.mpr (Or.inr ⟨h, ih⟩))
        · exact Or.inr (charsLe_cons_iff.mpr (Or.inr ⟨h.symm, ih⟩))
      · exact Or.inr (charsLe_cons_iff.mpr (Or.inl h))

lemma charsLe_trans : ∀ a b c : List Char,
    charsLe a b = true → charsLe b c = true → charsLe a c = true
  | [], _, _, _, _ => rfl
  | _ :: _, [], _, h1, _ => absurd h1 (by simp [charsLe])
  | _ :: _, _ :: _, [], _, h2 => absurd h2 (by simp [charsLe])
  | a :: as, b :: bs, c :: cs, h1, h2 => by
      rcases charsLe_cons_iff.mp h1 with hab | ⟨hab, hr1⟩ <;>
        rcases charsLe_cons_iff.mp h2 with hbc | ⟨hbc, hr2⟩
      · exact charsLe_cons_iff.mpr (Or.inl (hab.trans hbc))
      · exact charsLe_cons_iff.mpr (Or.inl (hbc ▸ hab))
      · exact charsLe_cons_iff.mpr (Or.inl (hab ▸ hbc))
      · exact charsLe_cons_iff.mpr
          (Or.inr ⟨hab.trans hbc, charsLe_trans as bs cs hr1 hr2⟩)

/-- The final comparator of `applyConfigToStocks`
(`(a.sortOrder ?? 999999) - (b.sortOrder ?? 999999)`, ties by
`(a.locationName || "").localeCompare(b.locationName || "")`): `sortOrder` is
always a number by construction, and `localeCompare` is modelled as the
codepoint order. -/
def stockRowLE (a b : StockRow) : Prop :=
  a.sortOrder < b.sortOrder ∨
    (a.sortOrder = b.sortOrder ∧ strLeB a.locationName b.locationName = true)

instance : DecidableRel stockRowLE := fun _ _ =>
  inferInstanceAs (Decidable (_ ∨ _))

instance : IsTotal StockRow stockRowLE where
  total a b := by
    rcases lt_trichotomy a.sortOrder b.sortOrder with h | h | h
    · exact Or.inl (Or.inl h)
    · rcases charsLe_total a.locationName.data b.locationName.data with hn | hn
      · exact Or.inl (Or.inr ⟨h, hn⟩)
      · exact Or.inr (Or.inr ⟨h.symm, hn⟩)
    · exact Or.inr (Or.inl h)

instance : IsTrans StockRow stockRowLE where
  trans a b c hab hbc := by
    rcases hab with hab | ⟨hab, hnab⟩ <;> rcases hbc with hbc | ⟨hbc, hnbc⟩
    · exact Or.inl (hab.trans hbc)
    · exact Or.inl (hbc ▸ hab)
    · exact Or.inl (hab ▸ hbc)
    · exact Or.inr ⟨hab.trans hbc, charsLe_trans _ _ _ hnab hnbc⟩

/-- `applyConfigToStocks(stocks, config)` from `apps.location-stock.js`:
with no location records every snapshot maps to its default row, in input
order; otherwise decorate (dropping `enabled === false` rows) and stable-sort
by `(sortOrder, locationName)`. JS `Array.prototype.sort` with a consistent
comparator is stable, which insertion sort models exactly. -/
def applyConfigToStocks (stocks : List Stock) (config : JVal) : List StockRow :=
  if (locationsConfigOf config).isEmpty then stocks.map defaultRow
  else List.insertionSort stockRowLE (stocks.filterMap (decorateOne config))

/-- The output ordering stated by the spec for `decorate`: declared
`sortOrder` ascending, ties broken by `displayName` ascending. -/
def specRowLE (a b : StockRow) : Prop :=
  a.sortOrder < b.sortOrder ∨
    (a.sortOrder = b.sortOrder ∧ strLeB a.displayName b.displayName = true)

instance : DecidableRel specRowLE := fun _ _ =>
  inferInstanceAs (Decidable (_ ∨ _))

/-- A snapshot named "a". -/
def stockA : Stock := ⟨some "L1", "a", 5, true, false, false, false, "R"⟩

/-- A snapshot named "b". -/
def stockB : Stock := ⟨some "L2", "b", 3, true, false, false, false, "R"⟩

/-- A config whose record for "L1" renames it to "z". -/
def cfgPub : JVal :=
  .obj [("locations", .arr
    [.obj [("locationId", .str "L1"), ("publicName", .str "z")],
     .obj [("locationId", .str "L2")]])]

/-- C1 counterexample: the output of `applyConfigToStocks` is not ordered by
`(sortOrder, displayName)`. With records present, the tie-break follows the
original `locationName`, so a `publicName` of "z" on the row named "a" leaves
the output `["z", "b"]` by display name; with an empty record list no sort
happens at all, so input order `["b", "a"]` survives a sentinel tie. -/
theorem applyConfigToStocks_specOrder_counterexample :
    ¬ List.Sorted specRowLE (applyConfigToStocks [stockA, stockB] cfgPub) ∧
    ¬ List.Sorted specRowLE (applyConfigToStocks [stockB, stockA] (.obj [])) := by
  constructor <;> decide

/-- C1 amended: when the record list is non-empty, the rows returned by
`applyConfigToStocks` are ordered by declared `sortOrder` ascending with ties
broken by the snapshot's original `locationName` ascending; when the record
list is empty the snapshots are returned decorated in their input order (all
with the sentinel sort order), with no sort applied. -/
theorem applyConfigToStocks_order (stocks : List Stock) (config : JVal) :
    ((locationsConfigOf config).isEmpty = false →
      List.Sorted stockRowLE (applyConfigToStocks stocks config)) ∧
    ((locationsConfigOf config).isEmpty = true →
      applyConfigToStocks stocks config = stocks.map defaultRow) := by
  constructor
  · intro h
    rw [applyConfigToStocks, if_neg (by simp [h])]
    exact List.sorted_insertionSort stockRowLE _
  · intro h
    rw [applyConfigToStocks, if_pos (by simp [h])]

/-- Witness for C1 at concrete inputs for both branches. -/
theorem applyConfigToStocks_order_witness :
    ((locationsConfigOf cfgPub).isEmpty = false ∧
      List.Sorted stockRowLE (applyConfigToStocks [stockA, stockB] cfgPub)) ∧
    ((locationsConfigOf (.obj [])).isEmpty = true ∧
      applyConfigToStocks [stockB, stockA] (.obj [])
        = [stockB, stockA].map defaultRow) :=
  ⟨⟨rfl, (applyConfigToStocks_order [stockA, stockB] cfgPub).1 rfl⟩,
   ⟨rfl, (applyConfigToStocks_order [stockB, stockA] (.obj [])).2 rfl⟩⟩

lemma recordsById_nil (key : JVal) : recordsById [] key = none := rfl

lemma locationsConfig_nonEmpty_of_lookup {config : JVal} {key : JVal} {cfg : JVal}
    (h : recordsById (locationsConfigOf config) key = some cfg) :
    (locationsConfigOf config).isEmpty = false := by
  cases hl : locationsConfigOf config with
  | nil => rw [hl] at h; exact absurd h (by rw [recordsById_nil]; exact Option.noConfusion)
  | cons a l => rfl

lemma decorateOne_locationId {config : JVal} {stock : Stock} {row : StockRow}
    (h : decorateOne config stock = some row) : row.locationId = stock.locationId := by
  unfold decorateOne at h
  cases hl : recordsById (locationsConfigOf config) (jsStockId stock.locationId) with
  | none =>
      rw [hl] at h
      simp only [Option.some.injEq] at h
      rw [← h]; rfl
  | some cfg =>
      rw [hl] at h
      cases he : isEnabledFalse cfg with
      | true => simp [he] at h
      | false =>
          simp only [he, Bool.false_eq_true, if_false, Option.some.injEq] at h
          rw [← h]; rfl

/-- C5: a snapshot whose matching location record has `enabled === false`
produces no row at all — no row of the output carries its location id, for
any combination of snapshots, records, and other config fields. -/
theorem applyConfigToStocks_enabledFalse_dropped
    (stocks : List Stock) (config : JVal) (stock : Stock) (cfg : JVal)
    (hs : stock ∈ stocks)
    (hlookup : recordsById (locationsConfigOf config) (jsStockId stock.locationId)
      = some cfg)
    (henabled : isEnabledFalse cfg = true) :
    ∀ row ∈ applyConfigToStocks stocks config, row.locationId ≠ stock.locationId := by
  intro row hrow heq
  have hne : (locationsConfigOf config).isEmpty = false :=
    locationsConfig_nonEmpty_of_lookup hlookup
  rw [applyConfigToStocks, if_neg (by simp [hne])] at hrow
  have hperm := List.perm_insertionSort stockRowLE (stocks.filterMap (decorateOne config))
  rcases List.mem_filterMap.mp (hperm.subset hrow) with ⟨s2, hs2, hdec⟩
  have hid : row.locationId = s2.locationId := decorateOne_locationId hdec
  have hsame : s2.locationId = stock.locationId := by rw [← hid, heq]
  unfold decorateOne at hdec
  rw [hsame, hlookup] at hdec
  simp [henabled] at hdec

/-- A config disabling "L1". -/
def cfgDisabled : JVal :=
  .obj [("locations", .arr
    [.obj [("locationId", .str "L1"), ("enabled", .bool false)],
     .obj [("locationId", .str "L2")]])]

/-- Witness for C5: the disabled snapshot "L1" yields no output row. -/
theorem applyConfigToStocks_enabledFalse_dropped_witness :
    stockA ∈ [stockA, stockB] ∧
    ∀ row ∈ applyConfigToStocks [stockA, stockB] cfgDisabled,
      row.locationId ≠ stockA.locationId :=
  ⟨by decide,
   applyConfigToStocks_enabledFalse_dropped [stockA, stockB] cfgDisabled stockA
     (.obj [("locationId", .str "L1"), ("enabled", .bool false)])
     (by decide) rfl rfl⟩

/-- C9: a snapshot with a matching record is dropped only when the record's
`enabled` is exactly the boolean `false`; for every other `enabled` value
(`true`, absent, `null`, `0`, the string "false", ...) the snapshot maps to
its fully decorated row with `fromConfig = true`, and that row is in the
output. -/
theorem applyConfigToStocks_nonFalseEnabled_kept
    (stocks : List Stock) (config : JVal) (stock : Stock) (cfg : JVal)
    (hs : stock ∈ stocks)
    (hlookup : recordsById (locationsConfigOf config) (jsStockId stock.locationId)
      = some cfg)
    (henabled : isEnabledFalse cfg = false) :
    decorateOne config stock = some (decoratedRow config cfg stock) ∧
      decoratedRow config cfg stock ∈ applyConfigToStocks stocks config ∧
      (decoratedRow config cfg stock).fromConfig = true := by
  have hne : (locationsConfigOf config).isEmpty = false :=
    locationsConfig_nonEmpty_of_lookup hlookup
  have hdec : decorateOne config stock = some (decoratedRow config cfg stock) := by
    unfold decorateOne
    rw [hlookup]
    simp [henabled]
  refine ⟨hdec, ?_, rfl⟩
  rw [applyConfigToStocks, if_neg (by simp [hne])]
  have hperm := List.perm_insertionSort stockRowLE (stocks.filterMap (decorateOne config))
  exact hperm.mem_iff.mpr (List.mem_filterMap.mpr ⟨stock, hs, hdec⟩)

/-- A config whose "L1" record carries the string "false" as `enabled`. -/
def cfgEnabledStr : JVal :=
  .obj [("locations", .arr
    [.obj [("locationId", .str "L1"), ("enabled", .str "false")]])]

/-- Witness for C9: `enabled: "false"` (a string, not the boolean) keeps the
row, decorated with `fromConfig = true`. -/
theorem applyConfigToStocks_nonFalseEnabled_kept_witness :
    decorateOne cfgEnabledStr stockA
        = some (decoratedRow cfgEnabledStr
            (.obj [("locationId", .str "L1"), ("enabled", .str "false")]) stockA) ∧
      decoratedRow cfgEnabledStr
          (.obj [("locationId", .str "L1"), ("enabled", .str "false")]) stockA
        ∈ applyConfigToStocks [stockA] cfgEnabledStr ∧
      (decoratedRow cfgEnabledStr
          (.obj [("locationId", .str "L1"), ("enabled", .str "false")]) stockA).fromConfig
        = true :=
  applyConfigToStocks_nonFalseEnabled_kept [stockA] cfgEnabledStr stockA
    (.obj [("locationId", .str "L1"), ("enabled", .str "false")])
    (by decide) rfl rfl

/-- `thresholds` section of the resolved config. -/
structure Thresholds where
  outOfStockMax : Int
  inStockMin : Int
  deriving DecidableEq

/-- `quantity` section. -/
structure QuantityCfg where
  showQuantity : Bool
  showQuantityLabel : Bool
  quantityLabel : String
  wrapperBefore : String
  wrapperAfter : String
  rowContentMode : String
  deriving DecidableEq

/-- `symbols` section. -/
structure SymbolsCfg where
  inStock : String
  lowStock : String
  outOfStock : String
  deriving DecidableEq

/-- `labels` section. -/
structure LabelsCfg where
  inStock : String
  lowStock : String
  outOfStock : String
  deriving DecidableEq

/-- `locations` display-rule section of the output (read from the top-level
`locationsMode` / `usePublicName` keys of the raw config). -/
structure LocationsCfg where
  mode : String
  usePublicName : Bool
  deriving DecidableEq

/-- `click` section. -/
structure ClickCfg where
  action : String
  mapUrlTemplate : String
  urlTemplate : String
  deriving DecidableEq

/-- `future` flags section. -/
structure FutureCfg where
  groupByRegion : Bool
  regionAccordionEnabled : Bool
  nearbyFirstEnabled : Bool
  nearbyOtherCollapsible : Bool
  nearbyOtherHeading : String
  showOrderPickButton : Bool
  orderPickButtonLabel : String
  orderPickRedirectToCheckout : Bool
  regionUnsetLabel : String
  deriving DecidableEq

/-- `sort` section. -/
structure SortCfg where
  mode : String
  deriving DecidableEq

/-- `messages` section. -/
structure MessagesCfg where
  loading : String
  empty : String
  error : String
  deriving DecidableEq

/-- The canonical config returned by `buildGlobalConfig`. `notice` is the
optional `{text}` wrapper, `regionGroups` keeps the raw entry objects (spread
with a defaulted `sortOrder`). -/
@[ext] structure GlobalConfig where
  thresholds : Thresholds
  quantity : QuantityCfg
  symbols : SymbolsCfg
  labels : LabelsCfg
  locations : LocationsCfg
  click : ClickCfg
  future : FutureCfg
  sort : SortCfg
  messages : MessagesCfg
  notice : Option String
  pinnedLocationId : Option String
  regionGroups : List JVal

/-- `typeof v === "number" ? v : d`. -/
def asNum (v : Option JVal) (d : Int) : Int :=
  match v with
  | some (.num n) => n
  | _ => d

/-- `typeof v === "string" ? v : d`. -/
def asStr (v : Option JVal) (d : String) : String :=
  match v with
  | some (.str s) => s
  | _ => d

/-- `typeof v === "boolean" ? v : d`. -/
def asBool (v : Option JVal) (d : Bool) : Bool :=
  match v with
  | some (.bool b) => b
  | _ => d

def resolveThresholds (raw : JVal) : Thresholds :=
  ⟨asNum (getField2 raw "thresholds" "outOfStockMax") 0,
   asNum (getField2 raw "thresholds" "inStockMin") 5⟩

def resolveQuantity (raw : JVal) : QuantityCfg :=
  ⟨asBool (getField2 raw "quantity" "showQuantity") true,
   asBool (getField2 raw "quantity" "showQuantityLabel") true,
   asStr (getField2 raw "quantity" "quantityLabel") "在庫",
   asStr (getField2 raw "quantity" "wrapperBefore") "(",
   asStr (getField2 raw "quantity" "wrapperAfter") ")",
   asStr (getField2 raw "quantity" "rowContentMode") "symbol_and_quantity"⟩

def resolveSymbols (raw : JVal) : SymbolsCfg :=
  ⟨asStr (getField2 raw "symbols" "inStock") "◯",
   asStr (getField2 raw "symbols" "lowStock") "△",
   asStr (getField2 raw "symbols" "outOfStock") "✕"⟩

def resolveLabels (raw : JVal) : LabelsCfg :=
  ⟨asStr (getField2 raw "labels" "inStock") "在庫あり",
   asStr (getField2 raw "labels" "lowStock") "残りわずか",
   asStr (getField2 raw "labels" "outOfStock") "在庫なし"⟩

/-- Note: reads the top-level keys `locationsMode` and `usePublicName`, not a
`locations` section (the output nests them under `locations`). -/
def resolveLocations (raw : JVal) : LocationsCfg :=
  ⟨asStr (getField raw "locationsMode") "all",
   asBool (getField raw "usePublicName") false⟩

def resolveClick (raw : JVal) : ClickCfg :=
  ⟨asStr (getField2 raw "click" "action") "none",
   asStr (getField2 raw "click" "mapUrlTemplate")
     "https://maps.google.com/?q={location_name}",
   asStr (getField2 raw "click" "urlTemplate") "/pages/store-{location_id}"⟩

def resolveFuture (raw : JVal) : FutureCfg :=
  ⟨asBool (getField2 raw "future" "groupByRegion") false,
   asBool (getField2 raw "future" "regionAccordionEnabled") false,
   asBool (getField2 raw "future" "nearbyFirstEnabled") false,
   asBool (getField2 raw "future" "nearbyOtherCollapsible") false,
   (match getField2 raw "future" "nearbyOtherHeading" with
    | some (.str s) => jsTrim s
    | _ => ""),
   asBool (getField2 raw "future" "showOrderPickButton") false,
   asStr (getField2 raw "future" "orderPickButtonLabel") "この店舗で受け取る",
   asBool (getField2 raw "future" "orderPickRedirectToCheckout") false,
   (match getField2 raw "future" "regionUnsetLabel" with
    | some (.str s) => if jsTrim s = "" then "その他" else jsTrim s
    | _ => "その他")⟩

def resolveSort (raw : JVal) : SortCfg :=
  ⟨asStr (getField2 raw "sort" "mode") "none"⟩

def resolveMessages (raw : JVal) : MessagesCfg :=
  ⟨asStr (getField2 raw "messages" "loading") "在庫を読み込み中...",
   asStr (getField2 raw "messages" "empty") "現在、この商品の店舗在庫はありません。",
   asStr (getField2 raw "messages" "error")
     "在庫情報の取得に失敗しました。時間をおいて再度お試しください。"⟩

/-- `safe.notice && typeof safe.notice.text === "string" && trim !== ""`:
only then the `{text}` wrapper, keeping the untrimmed text. -/
def resolveNotice (raw : JVal) : Option String :=
  match getField raw "notice" with
  | some nv =>
      if truthy nv then
        match getField nv "text" with
        | some (.str t) => if jsTrim t = "" then none else some t
        | _ => none
      else none
  | none => none

/-- `typeof getField g k` truthiness (`g && g.id`-style property tests). -/
def jfTruthy (g : JVal) (k : String) : Bool :=
  match getField g k with
  | some v => truthy v
  | none => false

/-- The `sortOrder` number of a mapped region-group entry (always present
after the defaulting map; 0 is an unreachable fallback for the comparator). -/
def rgSortOrder (g : JVal) : Int :=
  match getField g "sortOrder" with
  | some (.num n) => n
  | _ => 0

/-- The `(a, b) => a.sortOrder - b.sortOrder` comparator as a relation. -/
def rgLE (a b : JVal) : Prop := rgSortOrder a ≤ rgSortOrder b

instance : DecidableRel rgLE := fun _ _ => inferInstanceAs (Decidable (_ ≤ _))

instance : IsTotal JVal rgLE where
  total a b := le_total (rgSortOrder a) (rgSortOrder b)

instance : IsTrans JVal rgLE where
  trans _ _ _ h1 h2 := le_trans h1 h2

/-- `regionGroups`: filter entries with truthy `id` and `name`, default each
missing (non-number) `sortOrder` to its 1-based index, then stable-sort by
`sortOrder` ascending. -/
def resolveRegionGroups (raw : JVal) : List JVal :=
  List.insertionSort rgLE
    (((match getField raw "regionGroups" with
       | some (.arr l) => l
       | _ => []).filter
        (fun g => truthy g && jfTruthy g "id" && jfTruthy g "name")).mapIdx
      (fun i g =>
        setField g "sortOrder"
          (match getField g "sortOrder" with
           | some (.num n) => .num n
           | _ => .num (Int.ofNat i + 1))))

/-- `buildGlobalConfig(raw)` from `apps.location-stock.js`. The
`safe = raw && typeof raw === "object" ? raw : {}` guard is subsumed by
`getField`, which yields `undefined` for every non-object receiver. -/
def buildGlobalConfig (raw : JVal) : GlobalConfig :=
  { thresholds := resolveThresholds raw,
    quantity := resolveQuantity raw,
    symbols := resolveSymbols raw,
    labels := resolveLabels raw,
    locations := resolveLocations raw,
    click := resolveClick raw,
    future := resolveFuture raw,
    sort := resolveSort raw,
    messages := resolveMessages raw,
    notice := resolveNotice raw,
    pinnedLocationId := pinnedIdOf raw,
    regionGroups := resolveRegionGroups raw }

/-- The JSON shape of the object returned by `buildGlobalConfig` (what
serializing it to the metafield and parsing it back yields), with the same
key order as the source's return statement. -/
def serializeConfig (c : GlobalConfig) : JVal :=
  .obj
    [("thresholds", .obj
        [("outOfStockMax", .num c.thresholds.outOfStockMax),
         ("inStockMin", .num c.thresholds.inStockMin)]),
     ("quantity", .obj
        [("showQuantity", .bool c.quantity.showQuantity),
         ("showQuantityLabel", .bool c.quantity.showQuantityLabel),
         ("quantityLabel", .str c.quantity.quantityLabel),
         ("wrapperBefore", .str c.quantity.wrapperBefore),
         ("wrapperAfter", .str c.quantity.wrapperAfter),
         ("rowContentMode", .str c.quantity.rowContentMode)]),
     ("symbols", .obj
        [("inStock", .str c.symbols.inStock),
         ("lowStock", .str c.symbols.lowStock),
         ("outOfStock", .str c.symbols.outOfStock)]),
     ("labels", .obj
        [("inStock", .str c.labels.inStock),
         ("lowStock", .str c.labels.lowStock),
         ("outOfStock", .str c.labels.outOfStock)]),
     ("locations", .obj
        [("mode", .str c.locations.mode),
         ("usePublicName", .bool c.locations.usePublicName)]),
     ("click", .obj
        [("action", .str c.click.action),
         ("mapUrlTemplate", .str c.click.mapUrlTemplate),
         ("urlTemplate", .str c.click.urlTemplate)]),
     ("future", .obj
        [("groupByRegion", .bool c.future.groupByRegion),
         ("regionAccordionEnabled", .bool c.future.regionAccordionEnabled),
         ("nearbyFirstEnabled", .bool c.future.nearbyFirstEnabled),
         ("nearbyOtherCollapsible", .bool c.future.nearbyOtherCollapsible),
         ("nearbyOtherHeading", .str c.future.nearbyOtherHeading),
         ("showOrderPickButton", .bool c.future.showOrderPickButton),
         ("orderPickButtonLabel", .str c.future.orderPickButtonLabel),
         ("orderPickRedirectToCheckout", .bool c.future.orderPickRedirectToCheckout),
         ("regionUnsetLabel", .str c.future.regionUnsetLabel)]),
     ("sort", .obj [("mode", .str c.sort.mode)]),
     ("messages", .obj
        [("loading", .str c.messages.loading),
         ("empty", .str c.messages.empty),
         ("error", .str c.messages.error)]),
     ("notice",
        match c.notice with
        | some t => .obj [("text", .str t)]
        | none => .null),
     ("pinnedLocationId",
        match c.pinnedLocationId with
        | some p => .str p
        | none => .null),
     ("regionGroups", .arr c.regionGroups)]

/-- The fully-defaulted config (the source's `defaultConfig`, plus the
computed defaults `notice = null`, `pinnedLocationId = null`,
`regionGroups = []`). -/
def defaultGlobalConfig : GlobalConfig :=
  { thresholds := ⟨0, 5⟩,
    quantity := ⟨true, true, "在庫", "(", ")", "symbol_and_quantity"⟩,
    symbols := ⟨"◯", "△", "✕"⟩,
    labels := ⟨"在庫あり", "残りわずか", "在庫なし"⟩,
    locations := ⟨"all", false⟩,
    click := ⟨"none", "https://maps.google.com/?q={location_name}",
      "/pages/store-{location_id}"⟩,
    future := ⟨false, false, false, false, "", false, "この店舗で受け取る",
      false, "その他"⟩,
    sort := ⟨"none"⟩,
    messages := ⟨"在庫を読み込み中...", "現在、この商品の店舗在庫はありません。",
      "在庫情報の取得に失敗しました。時間をおいて再度お試しください。"⟩,
    notice := none,
    pinnedLocationId := none,
    regionGroups := [] }

/-- C6: a wrong-typed `thresholds.outOfStockMax` falls back to its own
default and touches nothing else; resolution is leaf-by-leaf, so a valid
sibling `inStockMin` next to the malformed key keeps its supplied value. -/
theorem buildGlobalConfig_leafwise (n : Int) :
    buildGlobalConfig (.obj [("thresholds", .obj [("outOfStockMax", .str "x")])])
        = defaultGlobalConfig ∧
      buildGlobalConfig (.obj [("thresholds", .obj
          [("outOfStockMax", .str "x"), ("inStockMin", .num n)])])
        = { defaultGlobalConfig with thresholds := ⟨0, n⟩ } :=
  ⟨rfl, rfl⟩

lemma dropWhile_of_head_false {α : Type} {p : α → Bool} {l : List α}
    (h : ∀ (hne : l ≠ []), p (l.head hne) = false) : List.dropWhile p l = l := by
  cases l with
  | nil => rfl
  | cons a t =>
      have ha := h (List.cons_ne_nil a t)
      simp only [List.head_cons] at ha
      simp [List.dropWhile_cons, ha]

lemma dropWhile_dropWhile {α : Type} (p : α → Bool) (l : List α) :
    List.dropWhile p (List.dropWhile p l) = List.dropWhile p l :=
  dropWhile_of_head_false (fun hne => List.head_dropWhile_not p l hne)

lemma trimChars_idem (l : List Char) : trimChars (trimChars l) = trimChars l := by
  unfold trimChars
  have hstep : List.dropWhile jsWs
      (List.dropWhile jsWs (List.dropWhile jsWs l).reverse).reverse =
      (List.dropWhile jsWs (List.dropWhile jsWs l).reverse).reverse := by
    apply dropWhile_of_head_false
    intro hne
    have hpre : (List.dropWhile jsWs
        (List.dropWhile jsWs l).reverse).reverse <+: List.dropWhile jsWs l := by
      have hsuf := List.dropWhile_suffix (l := (List.dropWhile jsWs l).reverse) jsWs
      have := hsuf.reverse
      rwa [List.reverse_reverse] at this
    rw [hpre.head hne]
    exact List.head_dropWhile_not jsWs l _
  rw [hstep, List.reverse_reverse, dropWhile_dropWhile]

lemma jsTrim_idem (s : String) : jsTrim (jsTrim s) = jsTrim s :=
  congrArg String.mk (trimChars_idem s.data)

lemma getField_setField_self (o : JVal) (k : String) (v : JVal) :
    getField (setField o k v) k = some v := by
  cases o
  case obj fields =>
      induction fields with
      | nil => simp [setField, setField.setFieldList, getField, List.lookup]
      | cons kv rest ih =>
          obtain ⟨k2, v2⟩ := kv
          by_cases hk : k2 = k
          · simp [setField, setField.setFieldList, hk, getField, List.lookup]
          · have hne : (k == k2) = false := by
              simp [beq_eq_false_iff_ne]
              exact fun he => hk he.symm
            simp only [setField, setField.setFieldList, if_neg hk, getField,
              List.lookup, hne] at ih ⊢
            exact ih
  all_goals simp [setField, getField, List.lookup]

lemma getField_setField_ne (o : JVal) (k : String) (v : JVal) (k2 : String)
    (h : k2 ≠ k) : getField (setField o k v) k2 = getField o k2 := by
  have hne : (k2 == k) = false := by simp [beq_eq_false_iff_ne, h]
  cases o
  case obj fields =>
      induction fields with
      | nil => simp [setField, setField.setFieldList, getField, List.lookup, hne]
      | cons kv rest ih =>
          obtain ⟨k3, v3⟩ := kv
          by_cases hk : k3 = k
          · subst hk
            simp [setField, setField.setFieldList, getField, List.lookup, hne]
          · simp only [setField, setField.setFieldList, if_neg hk, getField,
              List.lookup] at ih ⊢
            by_cases h2 : k2 = k3
            · simp [h2]
            · have hne2 : (k2 == k3) = false := by simp [beq_eq_false_iff_ne, h2]
              simp only [hne2, Bool.false_eq_true, if_false]
              exact ih
  all_goals simp [setField, getField, List.lookup, hne]

lemma setField_of_lookup_self {o : JVal} {k : String} {v : JVal}
    (h : getField o k = some v) : setField o k v = o := by
  cases o
  case obj fields =>
      simp only [setField]
      congr 1
      induction fields with
      | nil => simp [getField, List.lookup] at h
      | cons kv rest ih =>
          obtain ⟨k2, v2⟩ := kv
          by_cases hk : k2 = k
          · subst hk
            simp only [getField, List.lookup, beq_self_eq_true, if_true,
              Option.some.injEq] at h
            simp [setField.setFieldList, h]
          · have hne : (k == k2) = false := by
              simp [beq_eq_false_iff_ne]
              exact fun he => hk he.symm
            simp only [getField, List.lookup, hne, Bool.false_eq_true,
              if_false] at h
            simp [setField.setFieldList, hk, ih h]
  all_goals simp [getField] at h

lemma truthy_setField (o : JVal) (k : String) (v : JVal) :
    truthy (setField o k v) = true := by
  cases o <;> rfl

lemma nearbyOtherHeading_trimmed (x : JVal) :
    jsTrim ((buildGlobalConfig x).future.nearbyOtherHeading)
      = (buildGlobalConfig x).future.nearbyOtherHeading := by
  have hval : (buildGlobalConfig x).future.nearbyOtherHeading =
      (match getField2 x "future" "nearbyOtherHeading" with
       | some (.str s) => jsTrim s
       | _ => "") := rfl
  rw [hval]
  cases h : getField2 x "future" "nearbyOtherHeading" with
  | none => rfl
  | some v => cases v <;> first | rfl | exact jsTrim_idem _

lemma regionUnsetLabel_inv (x : JVal) :
    jsTrim ((buildGlobalConfig x).future.regionUnsetLabel)
        = (buildGlobalConfig x).future.regionUnsetLabel ∧
      (buildGlobalConfig x).future.regionUnsetLabel ≠ "" := by
  have hval : (buildGlobalConfig x).future.regionUnsetLabel =
      (match getField2 x "future" "regionUnsetLabel" with
       | some (.str s) => if jsTrim s = "" then "その他" else jsTrim s
       | _ => "その他") := rfl
  rw [hval]
  cases h : getField2 x "future" "regionUnsetLabel" with
  | none => exact ⟨rfl, show ("その他" : String) ≠ "" by decide⟩
  | some v =>
      cases v
      case str s =>
        by_cases ht : jsTrim s = ""
        · simp only [ht, if_true]
          exact ⟨by decide, by decide⟩
        · simp only [ht, if_false]
          exact ⟨jsTrim_idem s, ht⟩
      all_goals exact ⟨rfl, show ("その他" : String) ≠ "" by decide⟩

lemma notice_inv (x : JVal) {t : String}
    (h : (buildGlobalConfig x).notice = some t) : jsTrim t ≠ "" := by
  have hval : resolveNotice x = some t := h
  unfold resolveNotice at hval
  split at hval
  · split at hval
    · split at hval
      · split at hval
        · simp at hval
        · simp only [Option.some.injEq] at hval
          subst hval
          assumption
      · simp at hval
    · simp at hval
  · simp at hval

lemma pinned_inv (x : JVal) {p : String}
    (h : (buildGlobalConfig x).pinnedLocationId = some p) :
    jsTrim p = p ∧ p ≠ "" := by
  have hval : pinnedIdOf x = some p := h
  unfold pinnedIdOf at hval
  split at hval
  · rename_i s hsome
    split at hval
    · simp at hval
    · rename_i hne
      simp only [Option.some.injEq] at hval
      subst hval
      exact ⟨jsTrim_idem s, hne⟩
  · simp at hval

lemma resolveFuture_roundtrip (x : JVal) :
    resolveFuture (serializeConfig (buildGlobalConfig x))
      = (buildGlobalConfig x).future := by
  have hser : resolveFuture (serializeConfig (buildGlobalConfig x)) =
      { (buildGlobalConfig x).future with
          nearbyOtherHeading :=
            jsTrim ((buildGlobalConfig x).future.nearbyOtherHeading),
          regionUnsetLabel :=
            if jsTrim ((buildGlobalConfig x).future.regionUnsetLabel) = ""
            then "その他"
            else jsTrim ((buildGlobalConfig x).future.regionUnsetLabel) } := rfl
  rw [hser, nearbyOtherHeading_trimmed x, (regionUnsetLabel_inv x).1,
    if_neg (regionUnsetLabel_inv x).2]

lemma resolveNotice_roundtrip (x : JVal) :
    resolveNotice (serializeConfig (buildGlobalConfig x))
      = (buildGlobalConfig x).notice := by
  have hkey : getField (serializeConfig (buildGlobalConfig x)) "notice" =
      some (match (buildGlobalConfig x).notice with
            | some t => .obj [("text", .str t)]
            | none => .null) := rfl
  unfold resolveNotice
  rw [hkey]
  cases hn : (buildGlobalConfig x).notice with
  | none => rfl
  | some t =>
      show (if jsTrim t = "" then none else some t) = some t
      rw [if_neg (notice_inv x hn)]

lemma pinned_roundtrip (x : JVal) :
    pinnedIdOf (serializeConfig (buildGlobalConfig x))
      = (buildGlobalConfig x).pinnedLocationId := by
  have hkey : getField (serializeConfig (buildGlobalConfig x)) "pinnedLocationId" =
      some (match (buildGlobalConfig x).pinnedLocationId with
            | some p => .str p
            | none => .null) := rfl
  unfold pinnedIdOf
  rw [hkey]
  cases hp : (buildGlobalConfig x).pinnedLocationId with
  | none => rfl
  | some p =>
      obtain ⟨hidem, hne⟩ := pinned_inv x hp
      show (if jsTrim p = "" then none else some (jsTrim p)) = some p
      rw [hidem, if_neg hne]

lemma mem_mapIdx_exists {α β : Type} {f : ℕ → α → β} {l : List α} {b : β}
    (h : b ∈ List.mapIdx f l) : ∃ i a, a ∈ l ∧ b = f i a := by
  rcases List.mem_mapIdx.mp h with ⟨i, hi, heq⟩
  exact ⟨i, l[i], List.getElem_mem hi, heq.symm⟩

lemma mapIdx_eq_self {α : Type} {l : List α} {f : ℕ → α → α}
    (h : ∀ i a, a ∈ l → f i a = a) : List.mapIdx f l = l := by
  induction l generalizing f with
  | nil => exact List.mapIdx_nil
  | cons a t ih =>
      rw [List.mapIdx_cons, h 0 a (List.mem_cons_self a t),
        ih (fun i b hb => h (i + 1) b (List.mem_cons_of_mem a hb))]

lemma resolveRegionGroups_entry_inv (x : JVal) :
    ∀ g ∈ resolveRegionGroups x,
      (truthy g && jfTruthy g "id" && jfTruthy g "name") = true ∧
        ∃ n : Int, getField g "sortOrder" = some (.num n) := by
  intro g hg
  unfold resolveRegionGroups at hg
  have hg2 := (List.perm_insertionSort rgLE _).subset hg
  rcases mem_mapIdx_exists hg2 with ⟨i, g0, hg0, rfl⟩
  have hP := List.of_mem_filter hg0
  rcases Bool.and_eq_true_iff.mp hP with ⟨hP1, hP3⟩
  rcases Bool.and_eq_true_iff.mp hP1 with ⟨-, hP2⟩
  constructor
  · have h2 : jfTruthy (setField g0 "sortOrder"
        (match getField g0 "sortOrder" with
         | some (.num n) => JVal.num n
         | _ => JVal.num (Int.ofNat i + 1))) "id" = jfTruthy g0 "id" := by
      unfold jfTruthy
      rw [getField_setField_ne _ _ _ _ (by decide)]
    have h3 : jfTruthy (setField g0 "sortOrder"
        (match getField g0 "sortOrder" with
         | some (.num n) => JVal.num n
         | _ => JVal.num (Int.ofNat i + 1))) "name" = jfTruthy g0 "name" := by
      unfold jfTruthy
      rw [getField_setField_ne _ _ _ _ (by decide)]
    exact Bool.and_eq_true_iff.mpr
      ⟨Bool.and_eq_true_iff.mpr ⟨truthy_setField _ _ _, h2.trans hP2⟩,
       h3.trans hP3⟩
  · have hV : ∃ n : Int,
        (match getField g0 "sortOrder" with
         | some (.num n) => JVal.num n
         | _ => JVal.num (Int.ofNat i + 1)) = JVal.num n := by
      split
      · exact ⟨_, rfl⟩
      · exact ⟨_, rfl⟩
    obtain ⟨n, hn⟩ := hV
    refine ⟨n, ?_⟩
    rw [getField_setField_self, hn]

lemma resolveRegionGroups_sorted (x : JVal) :
    List.Sorted rgLE (resolveRegionGroups x) := by
  unfold resolveRegionGroups
  exact List.sorted_insertionSort rgLE _

lemma resolveRegionGroups_roundtrip (x : JVal) :
    resolveRegionGroups (serializeConfig (buildGlobalConfig x))
      = (buildGlobalConfig x).regionGroups := by
  have hser : resolveRegionGroups (serializeConfig (buildGlobalConfig x)) =
      List.insertionSort rgLE
        (((buildGlobalConfig x).regionGroups.filter
            (fun g => truthy g && jfTruthy g "id" && jfTruthy g "name")).mapIdx
          (fun i g =>
            setField g "sortOrder"
              (match getField g "sortOrder" with
               | some (.num n) => JVal.num n
               | _ => JVal.num (Int.ofNat i + 1)))) := rfl
  have hinv : ∀ g ∈ (buildGlobalConfig x).regionGroups,
      (truthy g && jfTruthy g "id" && jfTruthy g "name") = true ∧
        ∃ n : Int, getField g "sortOrder" = some (.num n) :=
    resolveRegionGroups_entry_inv x
  have hfilter :
      List.filter (fun g => truthy g && jfTruthy g "id" && jfTruthy g "name")
        ((buildGlobalConfig x).regionGroups) = (buildGlobalConfig x).regionGroups :=
    List.filter_eq_self.mpr (fun a ha => (hinv a ha).1)
  rw [hser, hfilter]
  have hmap : List.mapIdx
      (fun i g =>
        setField g "sortOrder"
          (match getField g "sortOrder" with
           | some (.num n) => JVal.num n
           | _ => JVal.num (Int.ofNat i + 1)))
      ((buildGlobalConfig x).regionGroups) = (buildGlobalConfig x).regionGroups := by
    refine mapIdx_eq_self (fun i a ha => ?_)
    obtain ⟨-, n, hn⟩ := hinv a ha
    rw [hn]
    exact setField_of_lookup_self hn
  rw [hmap]
  exact List.Sorted.insertionSort_eq (resolveRegionGroups_sorted x)

/-- C2 counterexample: re-resolving the serialized canonical config does not
reproduce `locations.mode`: `buildGlobalConfig` reads the top-level key
`locationsMode` but emits the value nested under `locations`, so the second
resolution falls back to the default "all". -/
theorem buildGlobalConfig_idem_counterexample :
    (buildGlobalConfig (.obj [("locationsMode", .str "online_only")])).locations.mode
        = "online_only" ∧
      (buildGlobalConfig (serializeConfig (buildGlobalConfig
          (.obj [("locationsMode", .str "online_only")])))).locations.mode
        = "all" :=
  ⟨rfl, rfl⟩

/-- C2 amended: for every raw config `x`,
`resolve(serialize(resolve(x)))` equals `resolve(x)` on every field except
the `locations` section (`mode`, `usePublicName`), which always reverts to
its defaults because the resolver reads those leaves from the top-level keys
`locationsMode` / `usePublicName` while emitting them nested under
`locations`. -/
theorem buildGlobalConfig_roundtrip (x : JVal) :
    buildGlobalConfig (serializeConfig (buildGlobalConfig x))
      = { buildGlobalConfig x with locations := ⟨"all", false⟩ } := by
  refine GlobalConfig.ext ?_ ?_ ?_ ?_ ?_ ?_ ?_ ?_ ?_ ?_ ?_ ?_
  · rfl
  · rfl
  · rfl
  · rfl
  · rfl
  · rfl
  · exact resolveFuture_roundtrip x
  · rfl
  · rfl
  · exact resolveNotice_roundtrip x
  · exact pinned_roundtrip x
  · exact resolveRegionGroups_roundtrip x

/-- Modelled from the spec: the stock-status bucket used by the
`inStockFirst` sort mode (quantity at most `outOfStockMax` is out of stock,
at least `inStockMin` is in stock, otherwise low stock), ranked so that
in-stock sorts first. The status computation lives in the theme snippet
`location-stock-indicator.liquid`, which is not among the repository sources
here. -/
def stockStatusRank (th : Thresholds) (q : Int) : Int :=
  if q ≤ th.outOfStockMax then 2 else if q < th.inStockMin then 1 else 0

/-- Whether a row is the pinned one (`locationId === pinnedLocationId`). -/
def pinnedMatch (pid : Option String) (r : StockRow) : Bool :=
  match pid with
  | some p => r.locationId == some p
  | none => false

/-- A sort key with the `nameAscending` tie-break: every spec sort mode is a
total preorder of this shape. -/
def keyedLE (key : StockRow → Int) (a b : StockRow) : Prop :=
  key a < key b ∨ (key a = key b ∧ strLeB a.displayName b.displayName = true)

instance (key : StockRow → Int) : DecidableRel (keyedLE key) := fun _ _ =>
  inferInstanceAs (Decidable (_ ∨ _))

/-- Modelled from the spec: ordering of the non-pinned pool under one of the
eight sort modes (§4.6); `none` and every unrecognized mode keep the pool's
arrival order. The sorter `sortLocations` lives in the theme snippet
`location-stock-indicator.liquid`, which is not among the repository sources
here. -/
def modeOrdered (mode : String) (th : Thresholds) (pool : List StockRow) :
    List StockRow :=
  if mode = "nameAscending" then
    List.insertionSort (keyedLE (fun _ => 0)) pool
  else if mode = "quantityDescending" then
    List.insertionSort (keyedLE (fun r => -r.quantity)) pool
  else if mode = "quantityAscending" then
    List.insertionSort (keyedLE (fun r => r.quantity)) pool
  else if mode = "inStockFirst" then
    List.insertionSort (keyedLE (fun r => stockStatusRank th r.quantity)) pool
  else if mode = "storePickupFirst" then
    List.insertionSort (keyedLE (fun r => if r.storePickupEnabled then 0 else 1)) pool
  else if mode = "shippingFirst" then
    List.insertionSort (keyedLE (fun r => if r.hasShipping then 0 else 1)) pool
  else if mode = "localDeliveryFirst" then
    List.insertionSort (keyedLE (fun r => if r.hasLocalDelivery then 0 else 1)) pool
  else pool

/-- Modelled from the spec: `sort(rows, sortMode, pinnedLocationId)` (§4.6) —
extract at most one row whose `locationId` equals the pinned id, order the
remaining pool by the sort mode, and put the pinned row first. -/
def sortLocations (rows : List StockRow) (mode : String) (pid : Option String)
    (th : Thresholds) : List StockRow :=
  match rows.find? (pinnedMatch pid) with
  | some p => p :: modeOrdered mode th (rows.eraseP (pinnedMatch pid))
  | none => modeOrdered mode th (rows.eraseP (pinnedMatch pid))

lemma modeOrdered_perm (mode : String) (th : Thresholds) (pool : List StockRow) :
    (modeOrdered mode th pool).Perm pool := by
  unfold modeOrdered
  split_ifs <;> first
    | exact List.perm_insertionSort _ _
    | exact List.Perm.refl _

/-- C7: for every sort mode, when the pinned id matches an existing row the
first output row carries that id; when it matches no row the output has
exactly the length and membership of the pool (which is then the whole input). -/
theorem sortLocations_pinned (rows : List StockRow) (mode : String)
    (pid : Option String) (th : Thresholds) :
    (∀ p : String, pid = some p →
        (∃ r ∈ rows, r.locationId = some p) →
        ∃ r0, (sortLocations rows mode pid th).head? = some r0 ∧
          r0.locationId = some p) ∧
      ((∀ r ∈ rows, pinnedMatch pid r = false) →
        (sortLocations rows mode pid th).length = rows.length ∧
          ∀ r, r ∈ sortLocations rows mode pid th ↔ r ∈ rows) := by
  constructor
  · rintro p rfl ⟨r, hr, hid⟩
    have hmatch : pinnedMatch (some p) r = true := by
      simp [pinnedMatch, hid]
    have hsome : (rows.find? (pinnedMatch (some p))).isSome :=
      List.find?_isSome.mpr ⟨r, hr, hmatch⟩
    obtain ⟨q, hq⟩ := Option.isSome_iff_exists.mp hsome
    have hqm : pinnedMatch (some p) q = true := List.find?_some hq
    refine ⟨q, ?_, ?_⟩
    · unfold sortLocations
      rw [hq]
      rfl
    · simpa [pinnedMatch] using hqm
  · intro hno
    have hfind : rows.find? (pinnedMatch pid) = none :=
      List.find?_eq_none.mpr (fun x hx => by rw [hno x hx]; exact Bool.false_ne_true)
    have herase : rows.eraseP (pinnedMatch pid) = rows :=
      List.eraseP_of_forall_not (fun a ha => by rw [hno a ha]; exact Bool.false_ne_true)
    have hout : sortLocations rows mode pid th = modeOrdered mode th rows := by
      unfold sortLocations
      rw [hfind, herase]
    rw [hout]
    exact ⟨(modeOrdered_perm mode th rows).length_eq,
      fun r => (modeOrdered_perm mode th rows).mem_iff⟩

/-- A pinned-sort witness row for "L1". -/
def rowL1 : StockRow :=
  ⟨some "L1", "a", 5, true, false, false, false, some (.str "R"), "a", 1, true, false⟩

/-- A pinned-sort witness row for "L2". -/
def rowL2 : StockRow :=
  ⟨some "L2", "b", 0, true, true, false, true, some (.str "R"), "b", 2, true, false⟩

/-- Witness for C7: under `quantityDescending`, pinning "L2" puts it first;
with a pinned id matching no row, length and membership equal the input. -/
theorem sortLocations_pinned_witness :
    (∃ r0, (sortLocations [rowL1, rowL2] "quantityDescending" (some "L2")
        ⟨0, 5⟩).head? = some r0 ∧ r0.locationId = some "L2") ∧
      ((sortLocations [rowL1, rowL2] "quantityDescending" (some "LX")
          ⟨0, 5⟩).length = 2 ∧
        ∀ r, r ∈ sortLocations [rowL1, rowL2] "quantityDescending" (some "LX")
            ⟨0, 5⟩ ↔ r ∈ [rowL1, rowL2]) := by
  constructor
  · exact (sortLocations_pinned [rowL1, rowL2] "quantityDescending"
      (some "L2") ⟨0, 5⟩).1 "L2" rfl
      ⟨rowL2, List.mem_cons_of_mem _ (List.mem_cons_self _ _), rfl⟩
  · exact (sortLocations_pinned [rowL1, rowL2] "quantityDescending"
      (some "LX") ⟨0, 5⟩).2
      (by
        intro r hr
        rcases List.mem_cons.mp hr with rfl | hr
        · rfl
        · rcases List.mem_cons.mp hr with rfl | hr
          · rfl
          · cases hr)
